import Mathlib

/-!
Verification of the `BigRegressionOutput` custom operator of
`src/squeezeDetMX/model.py`: the tensor layout codec
(`split_block` / `merge_block`), the three gradient rules
(`backward_bbox`, `backward_class`, `backward_score`), the `backward`
method, and `BigRegressionOutputProp.infer_shape`.

Modelling choices, shared by every definition below:

* An MXNet `NDArray` of rank 4 (batch, channel, height, width) is a
  `Tensor4`: four shape fields plus a total indexing function `val`;
  only the values of `val` at in-range indices are meaningful, and
  tensor equality (`t4eq`, `t5eq`) compares shapes and in-range entries.
* Element values live in an arbitrary commutative ring `α`; `nd.log` is
  an arbitrary function `lg : α → α` threaded through, so statements
  about the gradient formulas hold for the formula itself rather than
  for one numeric interpretation.
* MXNet operations that raise (`nd.split` with a `num_outputs` that is
  zero or does not evenly divide the axis, `nd.concat` of an empty
  argument list, binary ops on operands whose shapes are not
  broadcast-compatible) are modelled as `Option`-returning functions
  yielding `none`.  `NDArray.__sub__` / `__mul__` / `__add__` dispatch
  to `broadcast_sub` / `broadcast_mul` / `broadcast_add`, which follow
  numpy broadcasting: along each axis the sizes must agree or one of
  them must be 1, a size-1 axis being read at index 0 against the other
  operand; any other disagreement raises.  `nd.split` with
  `num_outputs = 1` returns a bare `NDArray` instead of a Python list,
  on which `split_block`'s subsequent list iteration is malformed; that
  case is likewise modelled as a failure.
* The constants `ANCHORS_PER_GRID`, `NUM_BBOX_ATTRS`, `NUM_CLASSES`
  (imported from `squeezeDetMX.constants`, not part of the sources
  under verification) are passed as explicit parameters `A`, `nb`, `nc`.
-/

namespace SqueezeDetMX

/-- A 4-d tensor (batch, channel, height, width): shape plus a total
indexing function.  Entries at out-of-range indices are irrelevant. -/
structure Tensor4 (α : Type) where
  b : Nat
  c : Nat
  h : Nat
  w : Nat
  val : Nat → Nat → Nat → Nat → α

/-- A 5-d tensor (batch, anchor, attribute, height, width), the shape of
the sub-tensors produced by `split_block` (axis 1 = anchor, axis 2 =
attribute). -/
structure Tensor5 (α : Type) where
  b : Nat
  a : Nat
  k : Nat
  h : Nat
  w : Nat
  val : Nat → Nat → Nat → Nat → Nat → α

/-- Element-exact equality of 4-d tensors: same shape, same entry at
every in-range index. -/
def t4eq {α : Type} (x y : Tensor4 α) : Prop :=
  x.b = y.b ∧ x.c = y.c ∧ x.h = y.h ∧ x.w = y.w ∧
    ∀ b < x.b, ∀ c < x.c, ∀ h < x.h, ∀ w < x.w, x.val b c h w = y.val b c h w

instance {α : Type} [DecidableEq α] (x y : Tensor4 α) : Decidable (t4eq x y) := by
  unfold t4eq; infer_instance

/-- Element-exact equality of 5-d tensors. -/
def t5eq {α : Type} (x y : Tensor5 α) : Prop :=
  x.b = y.b ∧ x.a = y.a ∧ x.k = y.k ∧ x.h = y.h ∧ x.w = y.w ∧
    ∀ b < x.b, ∀ a < x.a, ∀ k < x.k, ∀ h < x.h, ∀ w < x.w,
      x.val b a k h w = y.val b a k h w

instance {α : Type} [DecidableEq α] (x y : Tensor5 α) : Decidable (t5eq x y) := by
  unfold t5eq; infer_instance

/-- Exact shape agreement of two 5-d tensors.  When it holds, the
broadcasting of MXNet's binary `NDArray` operations is the identity on
indices and the operation is plainly elementwise. -/
@[reducible]
def sameShape5 {α : Type} (x y : Tensor5 α) : Prop :=
  x.b = y.b ∧ x.a = y.a ∧ x.k = y.k ∧ x.h = y.h ∧ x.w = y.w

/-- Numpy-style broadcast compatibility, the condition under which
MXNet's `broadcast_sub` / `broadcast_mul` / `broadcast_add` accept two
operands: along each axis the sizes agree or one of them is 1. -/
@[reducible]
def broadcastable5 {α : Type} (x y : Tensor5 α) : Prop :=
  (x.b = y.b ∨ x.b = 1 ∨ y.b = 1) ∧ (x.a = y.a ∨ x.a = 1 ∨ y.a = 1) ∧
    (x.k = y.k ∨ x.k = 1 ∨ y.k = 1) ∧ (x.h = y.h ∨ x.h = 1 ∨ y.h = 1) ∧
    (x.w = y.w ∨ x.w = 1 ∨ y.w = 1)

/-- Reading a possibly-broadcast axis of size `n` at result index `i`:
a size-1 axis is always read at 0. -/
def bcIdx (n i : Nat) : Nat := if n = 1 then 0 else i

/-- Binary operation on two 5-d tensors with MXNet/numpy broadcasting
(`NDArray.__sub__` / `__mul__` / `__add__` dispatch to
`broadcast_sub` / `broadcast_mul` / `broadcast_add`): on equal shapes
the operation is elementwise; otherwise size-1 axes are broadcast
against the other operand, the result taking the larger size on each
axis; incompatible shapes raise (`none`). -/
def map2 {α : Type} (f : α → α → α) (x y : Tensor5 α) : Option (Tensor5 α) :=
  if sameShape5 x y then
    some ⟨x.b, x.a, x.k, x.h, x.w,
      fun b a k h w => f (x.val b a k h w) (y.val b a k h w)⟩
  else if broadcastable5 x y then
    some ⟨max x.b y.b, max x.a y.a, max x.k y.k, max x.h y.h, max x.w y.w,
      fun b a k h w =>
        f (x.val (bcIdx x.b b) (bcIdx x.a a) (bcIdx x.k k) (bcIdx x.h h)
            (bcIdx x.w w))
          (y.val (bcIdx y.b b) (bcIdx y.a a) (bcIdx y.k k) (bcIdx y.h h)
            (bcIdx y.w w))⟩
  else none

/-- Elementwise unary operation (scalar-broadcast ops such as `2 * t`,
`1 - t`, and `nd.log` — these never fail). -/
def map1 {α : Type} (f : α → α) (x : Tensor5 α) : Tensor5 α :=
  ⟨x.b, x.a, x.k, x.h, x.w, fun b a k h w => f (x.val b a k h w)⟩

/-- Embedding of `BigRegressionOutput.split_block` (model.py lines 118–136).

`nd.split` divides the channel axis (the default `axis=1`) into
`K = int(c / ANCHORS_PER_GRID)` parts (MXNet raises unless `K ≥ 1` and
`K` evenly divides `c`; `K = 1` yields a bare `NDArray` rather than a
list, malformed downstream, so both are modelled as failure via the
guard `2 ≤ K ∧ K ∣ c`), each part `W = c / K` channels wide; part `i`
covers channels `[i*W, (i+1)*W)`.  Each part is `nd.expand_dims`-ed at
axis 2 and then `nd.concat` (along `dim=2`) joins parts
`[0, nb)` into `bbox`, parts `[nb, nb+nc)` into `class`, and the last
part alone is `score`; Python list slicing clips the ranges at `K`, and
`nd.concat` of an empty list raises. -/
def split_block {α : Type} (A nb nc : Nat) (T : Tensor4 α) :
    Option (Tensor5 α × Tensor5 α × Tensor5 α) :=
  if 2 ≤ T.c / A ∧ T.c / A ∣ T.c then
    if 1 ≤ min nb (T.c / A) ∧ 1 ≤ min (nb + nc) (T.c / A) - nb then
      some (⟨T.b, T.c / (T.c / A), min nb (T.c / A), T.h, T.w,
          fun b a k h w => T.val b (k * (T.c / (T.c / A)) + a) h w⟩,
        ⟨T.b, T.c / (T.c / A), min (nb + nc) (T.c / A) - nb, T.h, T.w,
          fun b a k h w => T.val b ((nb + k) * (T.c / (T.c / A)) + a) h w⟩,
        ⟨T.b, T.c / (T.c / A), 1, T.h, T.w,
          fun b a _ h w => T.val b ((T.c / A - 1) * (T.c / (T.c / A)) + a) h w⟩)
    else none
  else none

/-- Embedding of `BigRegressionOutput.merge_block` (model.py lines 138–148).

Each sub-tensor is `nd.split` along its attribute axis (`axis=2`,
`squeeze_axis=True`) into `shape[2]` slices (raises when `shape[2] = 0`;
the `shape[2] == 1` case is wrapped into a one-element list by the
source, which is semantically the same one-slice split), and all slices
are `nd.concat`-enated along the channel axis `dim=1`, which requires
every slice to agree in batch, height and width.  Channel `c` of the
result therefore reads slice `c / a` (attribute index) at anchor
`c % a` of the region the channel falls in. -/
def merge_block {α : Type} (x y z : Tensor5 α) : Option (Tensor4 α) :=
  if 1 ≤ x.k ∧ 1 ≤ y.k ∧ 1 ≤ z.k ∧ y.b = x.b ∧ y.h = x.h ∧ y.w = x.w ∧
      z.b = x.b ∧ z.h = x.h ∧ z.w = x.w then
    some ⟨x.b, x.k * x.a + y.k * y.a + z.k * z.a, x.h, x.w,
      fun b c h w =>
        if c < x.k * x.a then
          x.val b (c % x.a) (c / x.a) h w
        else if c < x.k * x.a + y.k * y.a then
          y.val b ((c - x.k * x.a) % y.a) ((c - x.k * x.a) / y.a) h w
        else
          z.val b ((c - x.k * x.a - y.k * y.a) % z.a)
            ((c - x.k * x.a - y.k * y.a) / z.a) h w⟩
  else none

/-- Embedding of `BigRegressionOutput.backward_bbox` (lines 150–158):
`2 * (pred_bbox - label_bbox)`. -/
def backward_bbox {α : Type} [CommRing α] (pred_bbox label_bbox : Tensor5 α) :
    Option (Tensor5 α) :=
  match map2 (fun x y => x - y) pred_bbox label_bbox with
  | some d => some (map1 (fun x => 2 * x) d)
  | none => none

/-- Embedding of `BigRegressionOutput.backward_class` (lines 160–168):
`pred_class * nd.log(1 - label_class) + pred_class * nd.log(label_class)`,
with `nd.log` modelled by the parameter `lg`. -/
def backward_class {α : Type} [CommRing α] (lg : α → α)
    (pred_class label_class : Tensor5 α) : Option (Tensor5 α) :=
  match map2 (fun x y => x * y) pred_class (map1 lg (map1 (fun x => 1 - x) label_class)),
      map2 (fun x y => x * y) pred_class (map1 lg label_class) with
  | some t1, some t2 => map2 (fun x y => x + y) t1 t2
  | _, _ => none

/-- Embedding of `BigRegressionOutput.backward_score` (lines 170–181): the IOU-based
rule is commented out in the source; the body is `return pred_score`. -/
def backward_score {α : Type} (pred_bbox label_bbox pred_score : Tensor5 α) :
    Tensor5 α :=
  pred_score

/-- Embedding of `BigRegressionOutput.backward` (lines 103–116), the gradient
computation only (the final `self.assign` into `in_grad[0]` is
`backward_method` below): decode prediction and label, apply the three
gradient rules, re-encode.  `in_data[1].as_in_context(...)` only moves
the label to the prediction's device and is value-preserving. -/
def backward {α : Type} [CommRing α] (A nb nc : Nat) (lg : α → α)
    (pred label : Tensor4 α) : Option (Tensor4 α) :=
  match split_block A nb nc pred, split_block A nb nc label with
  | some (pred_bbox, pred_class, pred_score), some (label_bbox, label_class, _) =>
    match backward_bbox pred_bbox label_bbox,
        backward_class lg pred_class label_class with
    | some grad_bbox, some grad_class =>
        merge_block grad_bbox grad_class
          (backward_score pred_bbox label_bbox pred_score)
    | _, _ => none
  | _, _ => none

/-- An MXNet gradient request, the entries of the `req` list passed to
`CustomOp.backward`. -/
inductive GradReq where
  | write
  | add
  | inplace
  | null
deriving DecidableEq

/-- Embedding of `mx.operator.CustomOp.assign(dst, req, src)`: `null` leaves `dst`,
`write`/`inplace` overwrite it with `src`, `add` accumulates.  Shape
agreement between `dst` and `src` is part of the framework contract. -/
def assign {α : Type} [CommRing α] (dst : Tensor4 α) (r : GradReq)
    (src : Tensor4 α) : Tensor4 α :=
  match r with
  | .null => dst
  | .write => src
  | .inplace => src
  | .add => ⟨dst.b, dst.c, dst.h, dst.w,
      fun b c h w => dst.val b c h w + src.val b c h w⟩

/-- The full `backward` method call (lines 103–116) including its one
side effect, `self.assign(in_grad[0], req[0], gradient)`.  The result is
the pair (in_data after the call, in_grad after the call); `none` means
the call raised before assigning anything.  Python's `in_data[0]`,
`in_data[1]`, `req[0]`, `in_grad[0]` raise `IndexError` on too-short
lists, modelled by `getElem?`. -/
def backward_method {α : Type} [CommRing α] (A nb nc : Nat) (lg : α → α)
    (req : List GradReq) (out_grad : List (Tensor4 α))
    (in_data : List (Tensor4 α)) (out_data : List (Tensor4 α))
    (in_grad : List (Tensor4 α)) (aux : List (Tensor4 α)) :
    Option (List (Tensor4 α) × List (Tensor4 α)) :=
  match in_data[0]? with
  | none => none
  | some pred =>
    match in_data[1]? with
    | none => none
    | some label =>
      match req[0]? with
      | none => none
      | some r =>
        match in_grad[0]? with
        | none => none
        | some dst =>
          match backward A nb nc lg pred label with
          | none => none
          | some gradient => some (in_data, in_grad.set 0 (assign dst r gradient))

/-- Embedding of `BigRegressionOutputProp.infer_shape` (lines 197–200): reads
`in_shape[0]` and `in_shape[1]` (IndexError, i.e. `none`, when fewer
than two shapes are supplied) and returns
`([pred_shape, label_shape], [pred_shape], [])` unconditionally — the
body contains no comparison of the two shapes. -/
def infer_shape (in_shape : List (List Nat)) :
    Option (List (List Nat) × List (List Nat) × List (List Nat)) :=
  match in_shape with
  | p :: l :: _ => some ([p, l], [p], [])
  | _ => none

/-- Composition `merge_block ∘ split_block` — the spec's `encode(decode(T))`. -/
def encode_decode {α : Type} (A nb nc : Nat) (T : Tensor4 α) :
    Option (Tensor4 α) :=
  match split_block A nb nc T with
  | some (x, y, z) => merge_block x y z
  | none => none

/-- Composition `split_block ∘ merge_block` — the opposite round-trip. -/
def decode_encode {α : Type} (A nb nc : Nat) (x y z : Tensor5 α) :
    Option (Tensor5 α × Tensor5 α × Tensor5 α) :=
  match merge_block x y z with
  | some T => split_block A nb nc T
  | none => none

/-- On a packed tensor of the contracted channel count
`A * (nb + nc + 1)` (with `A, nb, nc ≥ 1`), `split_block` succeeds and
the three sub-tensors read the channels `k*A + a`, `(nb+k)*A + a` and
`(nb+nc)*A + a` respectively. -/
theorem split_block_eq {α : Type} (A nb nc : Nat) (T : Tensor4 α)
    (hA : 1 ≤ A) (hnb : 1 ≤ nb) (hnc : 1 ≤ nc)
    (hc : T.c = A * (nb + nc + 1)) :
    split_block A nb nc T =
      some (⟨T.b, A, nb, T.h, T.w, fun b a k h w => T.val b (k * A + a) h w⟩,
        ⟨T.b, A, nc, T.h, T.w, fun b a k h w => T.val b ((nb + k) * A + a) h w⟩,
        ⟨T.b, A, 1, T.h, T.w, fun b a _ h w => T.val b ((nb + nc) * A + a) h w⟩) := by
  have hK : T.c / A = nb + nc + 1 := by
    rw [hc, Nat.mul_div_cancel_left _ hA]
  have hW : T.c / (nb + nc + 1) = A := by
    rw [hc, Nat.mul_div_cancel _ (by omega)]
  have h1 : min nb (nb + nc + 1) = nb := Nat.min_eq_left (by omega)
  have h2 : min (nb + nc) (nb + nc + 1) = nb + nc := Nat.min_eq_left (by omega)
  have h3 : nb + nc + 1 - 1 = nb + nc := by omega
  have h4 : nb + nc - nb = nc := by omega
  unfold split_block
  simp only [hK, hW, h1, h2, h3, h4]
  rw [if_pos ⟨by omega, by rw [hc]; exact dvd_mul_left _ _⟩,
    if_pos ⟨hnb, hnc⟩]

/-- Channel-index arithmetic for the first (bbox) region of a merged
block: anchor `c % A` of attribute `c / A` is channel `c`. -/
theorem idx1 (c A : ℕ) : c / A * A + c % A = c := Nat.div_add_mod' c A

/-- Channel-index arithmetic for the middle (class) region. -/
theorem idx2 (A nb c : ℕ) (h1 : ¬ c < nb * A) :
    (nb + (c - nb * A) / A) * A + (c - nb * A) % A = c := by
  have hd := Nat.div_add_mod (c - nb * A) A
  have h2 : nb * A ≤ c := le_of_not_lt h1
  calc (nb + (c - nb * A) / A) * A + (c - nb * A) % A
      = nb * A + (A * ((c - nb * A) / A) + (c - nb * A) % A) := by ring
    _ = nb * A + (c - nb * A) := by rw [hd]
    _ = c := by omega

/-- Channel-index arithmetic for the final (confidence) region. -/
theorem idx3 (A nb nc c : ℕ) (h2 : ¬ c < nb * A + nc * A)
    (h3 : c < nb * A + nc * A + 1 * A) :
    (nb + nc) * A + (c - nb * A - nc * A) % A = c := by
  have he : c - nb * A - nc * A < A := by omega
  have hm : (c - nb * A - nc * A) % A = c - nb * A - nc * A := Nat.mod_eq_of_lt he
  have hx : (nb + nc) * A = nb * A + nc * A := by ring
  omega

/-- C1: for every packed 4-d tensor `T` whose channel count equals
`ANCHORS_PER_GRID * (NUM_BBOX_ATTRS + NUM_CLASSES + 1)`, merging the
three sub-tensors produced by decoding `T` yields `T` again
element-exactly — `merge_block (split_block T) == T` — for every
combination of `ANCHORS_PER_GRID ∈ {1,3,9}`, `NUM_BBOX_ATTRS ∈ {1,4}`,
`NUM_CLASSES ∈ {1,5}`. -/
theorem c1_encode_decode_id {α : Type} (A nb nc : Nat) (T : Tensor4 α)
    (hA : A = 1 ∨ A = 3 ∨ A = 9) (hnb : nb = 1 ∨ nb = 4) (hnc : nc = 1 ∨ nc = 5)
    (hc : T.c = A * (nb + nc + 1)) :
    ∃ T2, encode_decode A nb nc T = some T2 ∧ t4eq T2 T := by
  have hA1 : 1 ≤ A := by rcases hA with h | h | h <;> omega
  have hnb1 : 1 ≤ nb := by rcases hnb with h | h <;> omega
  have hnc1 : 1 ≤ nc := by rcases hnc with h | h <;> omega
  unfold encode_decode
  rw [split_block_eq A nb nc T hA1 hnb1 hnc1 hc]
  simp only []
  unfold merge_block
  rw [if_pos ⟨hnb1, hnc1, le_refl 1, rfl, rfl, rfl, rfl, rfl, rfl⟩]
  refine ⟨_, rfl, rfl, by rw [hc]; ring, rfl, rfl, ?_⟩
  intro b hb c hcc h hh w hw
  simp only []
  by_cases r1 : c < nb * A
  · rw [if_pos r1, idx1]
  · rw [if_neg r1]
    by_cases r2 : c < nb * A + nc * A
    · rw [if_pos r2, idx2 A nb c r1]
    · rw [if_neg r2, idx3 A nb nc c r2 hcc]

/-- Witness for C1 at `A = 3`, `nb = 4`, `nc = 5` on a concrete
`(1, 30, 1, 1)` tensor. -/
theorem c1_encode_decode_id_witness :
    ((3 : ℕ) = 1 ∨ (3 : ℕ) = 3 ∨ (3 : ℕ) = 9) ∧
      ((4 : ℕ) = 1 ∨ (4 : ℕ) = 4) ∧ ((5 : ℕ) = 1 ∨ (5 : ℕ) = 5) ∧
      (Tensor4.mk 1 30 1 1 (fun _ c _ _ => (c : Int))).c = 3 * (4 + 5 + 1) ∧
      ∃ T2, encode_decode 3 4 5 (Tensor4.mk 1 30 1 1 (fun _ c _ _ => (c : Int))) =
          some T2 ∧
        t4eq T2 (Tensor4.mk 1 30 1 1 (fun _ c _ _ => (c : Int))) :=
  ⟨by decide, by decide, by decide, rfl,
    c1_encode_decode_id 3 4 5 _ (by decide) (by decide) (by decide) rfl⟩

/-- Anchor/attribute to channel: attribute `k < n`, anchor `a < A` lands
strictly inside the `n`-attribute region. -/
theorem idx4 (k A a n : ℕ) (hk : k < n) (ha : a < A) : k * A + a < n * A := by
  calc k * A + a < k * A + A := by omega
    _ = (k + 1) * A := by ring
    _ ≤ n * A := Nat.mul_le_mul_right A (by omega)

/-- The anchor component of channel `k * A + a` is `a`. -/
theorem idx5 (k A a : ℕ) (ha : a < A) : (k * A + a) % A = a := by
  rw [mul_comm k A, Nat.mul_add_mod]
  exact Nat.mod_eq_of_lt ha

/-- The attribute component of channel `k * A + a` is `k`. -/
theorem idx6 (k A a : ℕ) (ha : a < A) : (k * A + a) / A = k := by
  rw [mul_comm k A, Nat.mul_add_div (by omega)]
  simp [Nat.div_eq_of_lt ha]

/-- C9: merge followed by split is also the identity: on sub-tensors of
shapes `(b, A, nb, h, w)`, `(b, A, nc, h, w)`, `(b, A, 1, h, w)` (with
positive `A`, `nb`, `nc`, as in any real configuration),
`split_block (merge_block (x, y, z))` returns `(x, y, z)`
element-exactly. -/
theorem c9_decode_encode_id {α : Type} (A nb nc : Nat) (x y z : Tensor5 α)
    (hA : 1 ≤ A) (hnb : 1 ≤ nb) (hnc : 1 ≤ nc)
    (hxa : x.a = A) (hxk : x.k = nb) (hya : y.a = A) (hyk : y.k = nc)
    (hza : z.a = A) (hzk : z.k = 1)
    (hyb : y.b = x.b) (hyh : y.h = x.h) (hyw : y.w = x.w)
    (hzb : z.b = x.b) (hzh : z.h = x.h) (hzw : z.w = x.w) :
    ∃ x2 y2 z2, decode_encode A nb nc x y z = some (x2, y2, z2) ∧
      t5eq x2 x ∧ t5eq y2 y ∧ t5eq z2 z := by
  unfold decode_encode merge_block
  rw [if_pos ⟨by omega, by omega, by omega, hyb, hyh, hyw, hzb, hzh, hzw⟩]
  simp only [hxa, hxk, hya, hyk, hza, hzk, hyb, hyh, hyw, hzb, hzh, hzw]
  rw [split_block_eq A nb nc _ hA hnb hnc (by simp only []; ring)]
  refine ⟨_, _, _, rfl, ⟨rfl, hxa.symm, hxk.symm, rfl, rfl, ?_⟩,
    ⟨hyb.symm, hya.symm, hyk.symm, hyh.symm, hyw.symm, ?_⟩,
    ⟨hzb.symm, hza.symm, hzk.symm, hzh.symm, hzw.symm, ?_⟩⟩
  · intro b hb a ha k hk h hh w hw
    simp only []
    rw [if_pos (idx4 k A a nb hk ha), idx5 k A a ha, idx6 k A a ha]
  · intro b hb a ha k hk h hh w hw
    have e1 : (nb + k) * A = nb * A + k * A := by ring
    have r1 : ¬ (nb + k) * A + a < nb * A := by
      have := idx4 k A a nc hk ha
      omega
    have r2 : (nb + k) * A + a < nb * A + nc * A := by
      have := idx4 k A a nc hk ha
      omega
    have e2 : (nb + k) * A + a - nb * A = k * A + a := by omega
    simp only []
    rw [if_neg r1, if_pos r2, e2, idx5 k A a ha, idx6 k A a ha]
  · intro b hb a ha k hk h hh w hw
    simp only [] at hk
    have hk0 : k = 0 := by omega
    subst hk0
    have e1 : (nb + nc) * A = nb * A + nc * A := by ring
    have r1 : ¬ (nb + nc) * A + a < nb * A := by omega
    have r2 : ¬ (nb + nc) * A + a < nb * A + nc * A := by omega
    have e2 : (nb + nc) * A + a - nb * A - nc * A = a := by omega
    simp only []
    rw [if_neg r1, if_neg r2, e2, Nat.mod_eq_of_lt ha, Nat.div_eq_of_lt ha]

/-- Witness for C9 at `A = 3`, `nb = 4`, `nc = 5` on concrete
sub-tensors of batch 1 and spatial size 1×1. -/
theorem c9_decode_encode_id_witness :
    ∃ x2 y2 z2,
      decode_encode 3 4 5
          (Tensor5.mk 1 3 4 1 1 (fun _ a k _ _ => (100 * k + a : Int)))
          (Tensor5.mk 1 3 5 1 1 (fun _ a k _ _ => (1000 + 100 * k + a : Int)))
          (Tensor5.mk 1 3 1 1 1 (fun _ a _ _ _ => (2000 + a : Int))) =
        some (x2, y2, z2) ∧
      t5eq x2 (Tensor5.mk 1 3 4 1 1 (fun _ a k _ _ => (100 * k + a : Int))) ∧
      t5eq y2 (Tensor5.mk 1 3 5 1 1 (fun _ a k _ _ => (1000 + 100 * k + a : Int))) ∧
      t5eq z2 (Tensor5.mk 1 3 1 1 1 (fun _ a _ _ _ => (2000 + a : Int))) :=
  c9_decode_encode_id 3 4 5 _ _ _ (by decide) (by decide) (by decide)
    rfl rfl rfl rfl rfl rfl rfl rfl rfl rfl rfl rfl

/-- Master characterization of `backward` on a valid configuration:
it succeeds, the gradient has the prediction's shape, and channel `c`
carries the bbox rule below `nb*A`, the class rule below `(nb+nc)*A`,
and the confidence pass-through above. -/
theorem backward_eq {α : Type} [CommRing α] (A nb nc : Nat) (lg : α → α)
    (pred label : Tensor4 α) (hA : 1 ≤ A) (hnb : 1 ≤ nb) (hnc : 1 ≤ nc)
    (hpc : pred.c = A * (nb + nc + 1)) (hb : label.b = pred.b)
    (hc2 : label.c = pred.c) (hh : label.h = pred.h) (hw : label.w = pred.w) :
    ∃ G, backward A nb nc lg pred label = some G ∧
      G.b = pred.b ∧ G.c = pred.c ∧ G.h = pred.h ∧ G.w = pred.w ∧
      ∀ b < pred.b, ∀ c < pred.c, ∀ h < pred.h, ∀ w < pred.w,
        G.val b c h w =
          if c < nb * A then 2 * (pred.val b c h w - label.val b c h w)
          else if c < nb * A + nc * A then
            pred.val b c h w * lg (1 - label.val b c h w) +
              pred.val b c h w * lg (label.val b c h w)
          else pred.val b c h w := by
  unfold backward
  rw [split_block_eq A nb nc pred hA hnb hnc hpc,
    split_block_eq A nb nc label hA hnb hnc (by rw [hc2, hpc])]
  simp only [hb, hh, hw]
  simp only [backward_bbox, backward_class, backward_score, map2, map1, sameShape5,
    eq_self_iff_true, and_self, and_true, true_and, if_true]
  unfold merge_block
  rw [if_pos ⟨hnb, hnc, le_refl 1, rfl, rfl, rfl, rfl, rfl, rfl⟩]
  refine ⟨_, rfl, rfl, by rw [hpc]; ring, rfl, rfl, ?_⟩
  intro b hb2 c hcc h hh2 w hw2
  have hcc3 : c < nb * A + nc * A + 1 * A := by
    have hx : pred.c = nb * A + nc * A + 1 * A := by rw [hpc]; ring
    omega
  simp only []
  by_cases r1 : c < nb * A
  · rw [if_pos r1, if_pos r1, idx1]
  · rw [if_neg r1, if_neg r1]
    by_cases r2 : c < nb * A + nc * A
    · rw [if_pos r2, if_pos r2, idx2 A nb c r1]
    · rw [if_neg r2, if_neg r2, idx3 A nb nc c r2 hcc3]

/-- C3: the claimed shape-mismatch rejection is not implemented by the
source.  `backward` contains no shape check, and the binary `NDArray`
operations broadcast a size-1 axis, so a label whose batch (or height,
or width) is 1 against a larger prediction completes normally and a
full gradient is assigned to `in_grad[0]` — contradicting the spec's
requirement that the call fail with ShapeMismatchError before any
gradient output.  Concretely: prediction of shape `(2, 3, 1, 1)`,
label of shape `(1, 3, 1, 1)`, `A = nb = nc = 1` — the batch sizes
disagree, yet the method call returns a written state. -/
theorem c3_shape_mismatch_code_bug :
    (Tensor4.mk 2 3 1 1 (fun _ c _ _ => (c : Int))).b ≠
        (Tensor4.mk 1 3 1 1 (fun _ c _ _ => (c + 1 : Int))).b ∧
      (backward_method 1 1 1 (fun x : Int => x) [GradReq.write] []
          [Tensor4.mk 2 3 1 1 (fun _ c _ _ => (c : Int)),
            Tensor4.mk 1 3 1 1 (fun _ c _ _ => (c + 1 : Int))]
          [] [Tensor4.mk 2 3 1 1 (fun _ _ _ _ => (0 : Int))] []).isSome = true :=
  ⟨by decide, by decide⟩

/-- C4: on class sub-tensors of equal shape the class gradient is
`pred_class * log (1 - label_class) + pred_class * log label_class`
elementwise, exactly as written in the source (not a standard
cross-entropy derivative). -/
theorem c4_class_gradient {α : Type} [CommRing α] (lg : α → α)
    (pred_class label_class : Tensor5 α)
    (hsh : sameShape5 pred_class label_class) :
    ∃ g, backward_class lg pred_class label_class = some g ∧
      sameShape5 g pred_class ∧
      ∀ b a k h w, g.val b a k h w =
        pred_class.val b a k h w * lg (1 - label_class.val b a k h w) +
          pred_class.val b a k h w * lg (label_class.val b a k h w) := by
  obtain ⟨h1, h2, h3, h4, h5⟩ := hsh
  unfold backward_class map2 map1
  rw [if_pos ⟨h1, h2, h3, h4, h5⟩, if_pos ⟨h1, h2, h3, h4, h5⟩]
  simp only []
  rw [if_pos ⟨rfl, rfl, rfl, rfl, rfl⟩]
  exact ⟨_, rfl, ⟨rfl, rfl, rfl, rfl, rfl⟩, fun b a k h w => rfl⟩

/-- Witness for C4 on concrete `(1, 2, 2, 1, 1)` class sub-tensors with
`lg x = x * x` standing for the log. -/
theorem c4_class_gradient_witness :
    sameShape5 (Tensor5.mk 1 2 2 1 1 (fun _ a k _ _ => (10 * k + a : Int)))
        (Tensor5.mk 1 2 2 1 1 (fun _ a k _ _ => (3 + k + a : Int))) ∧
      ∃ g, backward_class (fun x : Int => x * x)
          (Tensor5.mk 1 2 2 1 1 (fun _ a k _ _ => (10 * k + a : Int)))
          (Tensor5.mk 1 2 2 1 1 (fun _ a k _ _ => (3 + k + a : Int))) = some g ∧
        sameShape5 g (Tensor5.mk 1 2 2 1 1 (fun _ a k _ _ => (10 * k + a : Int))) ∧
        ∀ b a k h w, g.val b a k h w =
          (Tensor5.mk 1 2 2 1 1 (fun _ a k _ _ => (10 * k + a : Int))).val b a k h w *
              (fun x : Int => x * x)
                (1 - (Tensor5.mk 1 2 2 1 1 (fun _ a k _ _ => (3 + k + a : Int))).val b a k h w) +
            (Tensor5.mk 1 2 2 1 1 (fun _ a k _ _ => (10 * k + a : Int))).val b a k h w *
              (fun x : Int => x * x)
                ((Tensor5.mk 1 2 2 1 1 (fun _ a k _ _ => (3 + k + a : Int))).val b a k h w) :=
  ⟨by decide, c4_class_gradient (fun x : Int => x * x) _ _ (by decide)⟩

/-- C5: on bbox sub-tensors of equal shape the bbox gradient is
`2 * (pred_bbox - label_bbox)` elementwise; equal inputs give the
all-zero gradient. -/
theorem c5_bbox_gradient {α : Type} [CommRing α]
    (pred_bbox label_bbox : Tensor5 α)
    (hsh : sameShape5 pred_bbox label_bbox) :
    ∃ g, backward_bbox pred_bbox label_bbox = some g ∧
      sameShape5 g pred_bbox ∧
      (∀ b a k h w, g.val b a k h w =
        2 * (pred_bbox.val b a k h w - label_bbox.val b a k h w)) ∧
      ((∀ b a k h w, pred_bbox.val b a k h w = label_bbox.val b a k h w) →
        ∀ b a k h w, g.val b a k h w = 0) := by
  obtain ⟨h1, h2, h3, h4, h5⟩ := hsh
  unfold backward_bbox map2 map1
  rw [if_pos ⟨h1, h2, h3, h4, h5⟩]
  simp only []
  refine ⟨_, rfl, ⟨rfl, rfl, rfl, rfl, rfl⟩, fun b a k h w => rfl, ?_⟩
  intro hbl b a k h w
  simp only [hbl, sub_self, mul_zero]

/-- Witness for C5 on concrete `(1, 2, 4, 1, 1)` bbox sub-tensors. -/
theorem c5_bbox_gradient_witness :
    sameShape5 (Tensor5.mk 1 2 4 1 1 (fun _ a k _ _ => (10 * k + a : Int)))
        (Tensor5.mk 1 2 4 1 1 (fun _ a k _ _ => (7 - k - a : Int))) ∧
      ∃ g, backward_bbox (Tensor5.mk 1 2 4 1 1 (fun _ a k _ _ => (10 * k + a : Int)))
          (Tensor5.mk 1 2 4 1 1 (fun _ a k _ _ => (7 - k - a : Int))) = some g ∧
        sameShape5 g (Tensor5.mk 1 2 4 1 1 (fun _ a k _ _ => (10 * k + a : Int))) ∧
        (∀ b a k h w, g.val b a k h w =
          2 * ((Tensor5.mk 1 2 4 1 1 (fun _ a k _ _ => (10 * k + a : Int))).val b a k h w -
            (Tensor5.mk 1 2 4 1 1 (fun _ a k _ _ => (7 - k - a : Int))).val b a k h w)) ∧
        ((∀ b a k h w,
            (Tensor5.mk 1 2 4 1 1 (fun _ a k _ _ => (10 * k + a : Int))).val b a k h w =
              (Tensor5.mk 1 2 4 1 1 (fun _ a k _ _ => (7 - k - a : Int))).val b a k h w) →
          ∀ b a k h w, g.val b a k h w = 0) :=
  ⟨by decide, c5_bbox_gradient _ _ (by decide)⟩

/-- C6: the confidence gradient is the identity pass-through of
`pred_score`; it does not depend on `pred_bbox` or `label_bbox` at all,
so the IOU-based rule `2 * (pred_score - IOU(pred_bbox, label_bbox))`
is not applied. -/
theorem c6_score_gradient {α : Type}
    (pred_bbox label_bbox pred_score pb2 lb2 : Tensor5 α) :
    backward_score pred_bbox label_bbox pred_score = pred_score ∧
      backward_score pred_bbox label_bbox pred_score =
        backward_score pb2 lb2 pred_score :=
  ⟨rfl, rfl⟩

/-- C7: on a packed tensor whose attribute slot `k` (channels
`[k*A, (k+1)*A)`) holds the constant value `k`, `split_block` puts
values `0..nb-1` on the bbox attribute axis in ascending order, values
`nb..nb+nc-1` on the class attribute axis in ascending order, and the
final slot value `nb+nc` into the confidence sub-tensor. -/
theorem c7_slot_ordering (A nb nc : Nat) (T : Tensor4 Nat)
    (hA : 1 ≤ A) (hnb : 1 ≤ nb) (hnc : 1 ≤ nc)
    (hc : T.c = A * (nb + nc + 1))
    (hv : ∀ b < T.b, ∀ c < T.c, ∀ h < T.h, ∀ w < T.w, T.val b c h w = c / A) :
    ∃ x y z, split_block A nb nc T = some (x, y, z) ∧
      (∀ b < T.b, ∀ a < A, ∀ k < nb, ∀ h < T.h, ∀ w < T.w,
        x.val b a k h w = k) ∧
      (∀ b < T.b, ∀ a < A, ∀ k < nc, ∀ h < T.h, ∀ w < T.w,
        y.val b a k h w = nb + k) ∧
      (∀ b < T.b, ∀ a < A, ∀ h < T.h, ∀ w < T.w,
        z.val b a 0 h w = nb + nc) := by
  have hle : ∀ m : ℕ, m < nb + nc + 1 → m * A + A ≤ T.c := by
    intro m hm
    calc m * A + A = (m + 1) * A := by ring
      _ ≤ (nb + nc + 1) * A := Nat.mul_le_mul_right A (by omega)
      _ = T.c := by rw [hc]; ring
  rw [split_block_eq A nb nc T hA hnb hnc hc]
  refine ⟨_, _, _, rfl, ?_, ?_, ?_⟩
  · intro b hb a ha k hk h hh w hw
    simp only []
    rw [hv b hb (k * A + a)
      (by have := hle k (by omega); omega) h hh w hw, idx6 k A a ha]
  · intro b hb a ha k hk h hh w hw
    simp only []
    rw [hv b hb ((nb + k) * A + a)
      (by have := hle (nb + k) (by omega); omega) h hh w hw, idx6 (nb + k) A a ha]
  · intro b hb a ha h hh w hw
    simp only []
    rw [hv b hb ((nb + nc) * A + a)
      (by have := hle (nb + nc) (by omega); omega) h hh w hw, idx6 (nb + nc) A a ha]

/-- Witness for C7 at `A = 3`, `nb = 4`, `nc = 5` on the concrete slot
tensor of shape `(1, 30, 2, 2)`. -/
theorem c7_slot_ordering_witness :
    (Tensor4.mk 1 30 2 2 (fun _ c _ _ => c / 3)).c = 3 * (4 + 5 + 1) ∧
      ∃ x y z, split_block 3 4 5 (Tensor4.mk 1 30 2 2 (fun _ c _ _ => c / 3)) =
          some (x, y, z) ∧
        (∀ b < (1 : ℕ), ∀ a < (3 : ℕ), ∀ k < (4 : ℕ), ∀ h < (2 : ℕ), ∀ w < (2 : ℕ),
          x.val b a k h w = k) ∧
        (∀ b < (1 : ℕ), ∀ a < (3 : ℕ), ∀ k < (5 : ℕ), ∀ h < (2 : ℕ), ∀ w < (2 : ℕ),
          y.val b a k h w = 4 + k) ∧
        (∀ b < (1 : ℕ), ∀ a < (3 : ℕ), ∀ h < (2 : ℕ), ∀ w < (2 : ℕ),
          z.val b a 0 h w = 4 + 5) :=
  ⟨rfl, c7_slot_ordering 3 4 5 _ (by decide) (by decide) (by decide) rfl
    (fun _ _ _ _ _ _ _ _ => rfl)⟩

/-- C8: the gradient does not depend on the label's confidence slot.
Two label tensors that agree outside the final attribute slot (channels
below `(nb+nc)*A`) produce element-exactly identical packed gradients. -/
theorem c8_label_confidence_unused {α : Type} [CommRing α]
    (A nb nc : Nat) (lg : α → α) (pred label1 label2 : Tensor4 α)
    (hA : 1 ≤ A) (hnb : 1 ≤ nb) (hnc : 1 ≤ nc)
    (hpc : pred.c = A * (nb + nc + 1))
    (hb1 : label1.b = pred.b) (hc1 : label1.c = pred.c)
    (hh1 : label1.h = pred.h) (hw1 : label1.w = pred.w)
    (hb2 : label2.b = label1.b) (hc2 : label2.c = label1.c)
    (hh2 : label2.h = label1.h) (hw2 : label2.w = label1.w)
    (hagree : ∀ b < label1.b, ∀ c < label1.c, ∀ h < label1.h, ∀ w < label1.w,
      c < nb * A + nc * A → label1.val b c h w = label2.val b c h w) :
    ∃ g1 g2, backward A nb nc lg pred label1 = some g1 ∧
      backward A nb nc lg pred label2 = some g2 ∧ t4eq g1 g2 := by
  obtain ⟨g1, e1, gb1, gc1, gh1, gw1, v1⟩ :=
    backward_eq A nb nc lg pred label1 hA hnb hnc hpc hb1 hc1 hh1 hw1
  obtain ⟨g2, e2, gb2, gc2, gh2, gw2, v2⟩ :=
    backward_eq A nb nc lg pred label2 hA hnb hnc hpc
      (hb2.trans hb1) (hc2.trans hc1) (hh2.trans hh1) (hw2.trans hw1)
  refine ⟨g1, g2, e1, e2, gb1.trans gb2.symm, gc1.trans gc2.symm,
    gh1.trans gh2.symm, gw1.trans gw2.symm, ?_⟩
  intro b hb c hcc h hh w hw
  rw [gb1] at hb
  rw [gc1] at hcc
  rw [gh1] at hh
  rw [gw1] at hw
  rw [v1 b hb c hcc h hh w hw, v2 b hb c hcc h hh w hw]
  have hag : c < nb * A + nc * A →
      label1.val b c h w = label2.val b c h w := fun hlt =>
    hagree b (by omega) c (by omega) h (by omega) w (by omega) hlt
  by_cases r1 : c < nb * A
  · rw [if_pos r1, if_pos r1, hag (by omega)]
  · rw [if_neg r1, if_neg r1]
    by_cases r2 : c < nb * A + nc * A
    · rw [if_pos r2, if_pos r2, hag r2]
    · rw [if_neg r2, if_neg r2]

/-- Witness for C8 at `A = nb = nc = 1`: two labels differing only in
the final (confidence) channel yield identical gradients. -/
theorem c8_label_confidence_unused_witness :
    (∀ b < (1 : ℕ), ∀ c < (3 : ℕ), ∀ h < (1 : ℕ), ∀ w < (1 : ℕ),
      c < 1 * 1 + 1 * 1 →
        (Tensor4.mk 1 3 1 1 (fun _ c _ _ => (c + 1 : Int))).val b c h w =
          (Tensor4.mk 1 3 1 1 (fun _ c _ _ => if c = 2 then 42 else (c + 1 : Int))).val b c h w) ∧
    ∃ g1 g2,
      backward 1 1 1 (fun x : Int => x * x)
          (Tensor4.mk 1 3 1 1 (fun _ c _ _ => (c : Int)))
          (Tensor4.mk 1 3 1 1 (fun _ c _ _ => (c + 1 : Int))) = some g1 ∧
      backward 1 1 1 (fun x : Int => x * x)
          (Tensor4.mk 1 3 1 1 (fun _ c _ _ => (c : Int)))
          (Tensor4.mk 1 3 1 1 (fun _ c _ _ => if c = 2 then 42 else (c + 1 : Int))) =
        some g2 ∧
      t4eq g1 g2 :=
  ⟨by decide,
    c8_label_confidence_unused 1 1 1 (fun x : Int => x * x) _ _ _
      (by decide) (by decide) (by decide) rfl rfl rfl rfl rfl rfl rfl rfl rfl
      (by decide)⟩

/-- Dropping the head update: `List.set 0` touches no later element. -/
theorem drop_one_set_zero {β : Type} (l : List β) (t : β) :
    (l.set 0 t).drop 1 = l.drop 1 := by
  cases l <;> rfl

/-- C10: the `backward` method writes only the gradient slot of the
prediction argument.  Whenever the call completes, the `in_data` list it
leaves behind is exactly the one passed in (no input tensor is
mutated), and every entry of `in_grad` except index 0 — in particular
the label's gradient slot `in_grad[1]` — is unchanged, as is the list's
length. -/
theorem c10_only_in_grad0_assigned {α : Type} [CommRing α]
    (A nb nc : Nat) (lg : α → α) (req : List GradReq)
    (out_grad in_data out_data in_grad aux : List (Tensor4 α)) :
    (backward_method A nb nc lg req out_grad in_data out_data in_grad aux).map
        (fun p => (p.1, p.2.drop 1, p.2.length)) =
      (backward_method A nb nc lg req out_grad in_data out_data in_grad aux).map
        (fun _ => (in_data, in_grad.drop 1, in_grad.length)) := by
  unfold backward_method
  cases in_data[0]? with
  | none => rfl
  | some pred =>
    simp only []
    cases in_data[1]? with
    | none => rfl
    | some label =>
      simp only []
      cases req[0]? with
      | none => rfl
      | some r =>
        simp only []
        cases in_grad[0]? with
        | none => rfl
        | some dst =>
          simp only []
          cases backward A nb nc lg pred label with
          | none => rfl
          | some gradient =>
            simp only [Option.map_some', drop_one_set_zero, List.length_set]

/-- C2 counterexample: two input shapes that disagree in the batch
dimension; `infer_shape` returns normally instead of failing. -/
theorem c2_infer_shape_counterexample :
    [2, 72, 19, 19] ≠ [1, 72, 19, 19] ∧
      infer_shape [[2, 72, 19, 19], [1, 72, 19, 19]] =
        some ([[2, 72, 19, 19], [1, 72, 19, 19]], [[2, 72, 19, 19]], []) :=
  ⟨by decide, rfl⟩

/-- C2 (amended): for every pair of input shapes, `infer_shape` returns
argument shapes `[prediction_shape, label_shape]`, outputs
`[prediction_shape]` and an empty auxiliary list — unconditionally, so
it does not fail when the two shapes disagree. -/
theorem c2_infer_shape_unconditional (p l : List Nat) (rest : List (List Nat)) :
    infer_shape (p :: l :: rest) = some ([p, l], [p], []) :=
  rfl

end SqueezeDetMX
